import Mathlib

/-!
Verification of the photogrammetry-service processing-orchestration engine.

This file gives a shallow embedding, in Lean, of the algorithmic core of the
repository:

- the Firestore project-document store and its atomic status-transition
  primitive (src/api/services/storage.py),
- the capacity planner (src/api/services/batch.py),
- the worker progress pipeline: progress estimation from log lines, the
  monotone progress push loop, ODM command construction, and the
  status-update writer (src/worker/main.py),
- the filename sanitizer (src/api/services/storage.py).

Documents are modelled as association lists of string keys to a small value
universe, mirroring Python dicts; the Firestore database is a map from
project id to document.  Clock reads (datetime.now) are passed in as an
explicit timestamp string.  Calls into the Google Cloud SDK that may raise
are modelled with an explicit success flag feeding an Except result.
-/

namespace Photogrammetry

/-- Value universe for project documents: the JSON-like values the service
stores in Firestore (strings, integers, booleans, null, arrays, and nested
maps). -/
inductive Value where
  | vstr : String → Value
  | vint : Int → Value
  | vbool : Bool → Value
  | vnull : Value
  | vlist : List Value → Value
  | vdoc : List (String × Value) → Value

/-- A Firestore document, modelled as a Python dict: an association list of
keys to values (keys of a real dict are unique; lookups take the first
binding). -/
abbrev Doc := List (String × Value)

/-- Dict lookup: the value of the first binding of the key, if any
(Python dict `get`). -/
def Doc.get (d : Doc) (k : String) : Option Value :=
  match d with
  | [] => none
  | (k2, v) :: rest => if k2 = k then some v else Doc.get rest k

/-- Dict write `d[k] = v`: replace the first binding of `k` in place,
or append a new binding at the end (Python dict insertion order). -/
def Doc.set (d : Doc) (k : String) (v : Value) : Doc :=
  match d with
  | [] => [(k, v)]
  | (k2, v2) :: rest => if k2 = k then (k2, v) :: rest else (k2, v2) :: Doc.set rest k v

/-- Dict merge `d.update(u)` / `\x7b**d, **u\x7d`: apply every binding of `u`
to `d` in order, the bindings of `u` winning on key collision. -/
def Doc.merge (d u : Doc) : Doc :=
  u.foldl (fun acc kv => Doc.set acc kv.1 kv.2) d

/-- The keys of a document. -/
def Doc.keys (d : Doc) : List String := d.map Prod.fst

/-- The Firestore `projects` collection: a map from project id to the stored
document, `none` where no document exists. -/
def DB : Type := String → Option Doc

/-- Store a document under a project id. -/
def DB.set (db : DB) (pid : String) (d : Doc) : DB :=
  fun k => if k = pid then some d else db k

/-- Firestore `doc_ref.update(updates)`: merge `updates` into the stored
document.  The `ok` flag models whether the SDK call succeeds; on `false`
the call raises (Except.error), which is how Firestore unavailability
reaches the Python code.  Updating a missing document also raises. -/
def firestoreUpdate (ok : Bool) (db : DB) (pid : String) (updates : Doc) :
    Except String DB :=
  if ok then
    match db pid with
    | some data => Except.ok (DB.set db pid (Doc.merge data updates))
    | none => Except.error "document not found"
  else
    Except.error "firestore unavailable"

/-- Membership test `current in allowed_from` as Python evaluates it:
`current` is the raw value stored under "status" (possibly missing, i.e.
None); only a string value can equal one of the allowed status strings. -/
def statusIn (v : Option Value) (allowed : List String) : Bool :=
  match v with
  | some (Value.vstr s) => allowed.contains s
  | _ => false

/-- Result of the status-transition primitive `_transition_status_sync`:
None for a missing project, a `__rejected` marker dict carrying the actual
current status, or the updated project document. -/
inductive TransitionResult where
  | notFound : TransitionResult
  | rejected : Option Value → TransitionResult
  | success : Doc → TransitionResult

/-- Embedding of `StorageService._transition_status_sync`
(src/api/services/storage.py:266-302).  Inside one Firestore transaction:
read the document (notFound when missing), reject without mutation when the
current status is not in `allowed_from`, otherwise build
`updates = \x7b"status": new_status, "updated_at": now\x7d` merged with
`extra_updates` (the extra bindings winning on collision, as dict.update
does), write the merge into the stored document and return the merged
document.  `ok` models whether the transactional write succeeds; the Python
function has no exception handler, so a write failure propagates as
Except.error. -/
def transition_status_sync (ok : Bool) (db : DB) (now : String)
    (project_id : String) (allowed_from : List String) (new_status : String)
    (extra_updates : Option Doc) : Except String (DB × TransitionResult) :=
  match db project_id with
  | none => Except.ok (db, TransitionResult.notFound)
  | some data =>
    let current := Doc.get data "status"
    if statusIn current allowed_from then
      let base : Doc := [("status", Value.vstr new_status), ("updated_at", Value.vstr now)]
      let updates := Doc.merge base (match extra_updates with | some e => e | none => [])
      match firestoreUpdate ok db project_id updates with
      | Except.ok db2 => Except.ok (db2, TransitionResult.success (Doc.merge data updates))
      | Except.error e => Except.error e
    else
      Except.ok (db, TransitionResult.rejected current)

/-- Embedding of `StorageService._append_file_sync`
(src/api/services/storage.py:214-236).  Inside one transaction: if the
project exists, append the file entry to its `files` list and
unconditionally set status "uploading" and a fresh `updated_at`.  Returns
whether the project existed.  (A stored `files` value that is not a list
would raise in Python; such documents never arise from the writes of this
service and are mapped to the empty list here.) -/
def append_file_sync (db : DB) (now : String) (project_id : String)
    (file_data : Doc) : DB × Bool :=
  match db project_id with
  | none => (db, false)
  | some data =>
    let files := match Doc.get data "files" with
      | some (Value.vlist l) => l
      | _ => []
    let updates : Doc :=
      [("files", Value.vlist (files ++ [Value.vdoc file_data])),
       ("status", Value.vstr "uploading"),
       ("updated_at", Value.vstr now)]
    (DB.set db project_id (Doc.merge data updates), true)

/-- Embedding of `PhotogrammetryWorker.update_status`
(src/worker/main.py:157-184).  Builds the update dict (status, fresh
updated_at, then progress when not None, error_message when the error
string is truthy, outputs when the list is truthy) and issues one Firestore
update.  The whole body is wrapped in try/except: on any failure the
exception is logged and swallowed, so the function always returns a
database, never an error — the `Except.error` branch of the write collapses
to the unchanged input database. -/
def update_status (ok : Bool) (db : DB) (now : String) (project_id : String)
    (status : String) (progress : Option Int) (error : Option String)
    (outputs : Option (List Value)) : DB :=
  let updates : Doc :=
    [("status", Value.vstr status), ("updated_at", Value.vstr now)]
      ++ (match progress with
          | some p => [("progress", Value.vint p)]
          | none => [])
      ++ (match error with
          | some e => if e = "" then [] else [("error_message", Value.vstr e)]
          | none => [])
      ++ (match outputs with
          | some l => if l.isEmpty then [] else [("outputs", Value.vlist l)]
          | none => [])
  match firestoreUpdate ok db project_id updates with
  | Except.ok db2 => db2
  | Except.error _ => db

/-- Embedding of `StorageService._update_project_sync`
(src/api/services/storage.py:178-189): read the document (none when
missing), add a fresh `updated_at` to the update dict, merge it into the
stored document, and return the freshly read document. -/
def update_project_sync (db : DB) (now : String) (project_id : String)
    (updates : Doc) : DB × Option Doc :=
  match db project_id with
  | none => (db, none)
  | some data =>
    let updates2 := Doc.set updates "updated_at" (Value.vstr now)
    let newDoc := Doc.merge data updates2
    (DB.set db project_id newDoc, some newDoc)

/-- Result of the finalize-upload endpoint: 404, 400 for no files, or
success with the object count. -/
inductive FinalizeResult where
  | notFound : FinalizeResult
  | noFiles : FinalizeResult
  | ok : Int → FinalizeResult

/-- Embedding of `finalize_upload` (src/api/routers/projects.py:210-235):
404 when the project is missing, 400 when no objects are present under the
upload prefix, otherwise write status "pending" and the object count
through the plain update path (no current-status check).  `uploaded` is
the object listing under the prefix of the project. -/
def finalize_upload (db : DB) (now : String) (project_id : String)
    (uploaded : List String) : DB × FinalizeResult :=
  match db project_id with
  | none => (db, FinalizeResult.notFound)
  | some _ =>
    if uploaded.length = 0 then (db, FinalizeResult.noFiles)
    else
      ((update_project_sync db now project_id
          [("status", Value.vstr "pending"),
           ("files_count", Value.vint uploaded.length)]).1,
        FinalizeResult.ok uploaded.length)

/-- Status of a stored project, as read by tests and callers. -/
def dbStatus (db : DB) (pid : String) : Option Value :=
  match db pid with
  | some d => Doc.get d "status"
  | none => none

/-- A project document in status "pending". -/
def exPendingDoc : Doc :=
  [("project_id", Value.vstr "p1"), ("status", Value.vstr "pending"),
   ("progress", Value.vint 0), ("files", Value.vlist [])]

/-- A store holding one pending project "p1". -/
def exDB1 : DB :=
  fun pid => if pid = "p1" then some exPendingDoc else none

/-- A project document in the terminal status "completed". -/
def exCompletedDoc : Doc :=
  [("project_id", Value.vstr "p1"), ("status", Value.vstr "completed"),
   ("files", Value.vlist []), ("outputs", Value.vlist [])]

/-- A store holding one completed project "p1". -/
def exDB2 : DB :=
  fun pid => if pid = "p1" then some exCompletedDoc else none

/-- The status field of the document a successful transition returned. -/
def transitionResultStatus (r : Except String (DB × TransitionResult)) :
    Option Value :=
  match r with
  | Except.ok (_, TransitionResult.success d) => Doc.get d "status"
  | _ => none

/-! Capacity planner (src/api/services/batch.py). -/

/-- A machine tier from the BATCH_MACHINE_TIERS configuration: an upper
bound on the image count and the compute shape to use below that bound. -/
structure Tier where
  maxImages : Int
  machineType : String
  cpuMilli : Int
  memoryMib : Int
deriving DecidableEq

/-- The (machineType, cpuMilli, memoryMib) triple a tier contributes. -/
def Tier.shape (t : Tier) : String × Int × Int :=
  (t.machineType, t.cpuMilli, t.memoryMib)

/-- Embedding of `select_machine_tier` (src/api/services/batch.py:118-140):
scan the tiers in order and return the shape of the first tier whose
`maxImages` is at least `file_count`; when no tier qualifies, fall through
to the last tier.  `tiers[-1]` on an empty list raises IndexError in
Python, modelled as `none`. -/
def select_machine_tier (file_count : Int) (tiers : List Tier) :
    Option (String × Int × Int) :=
  match tiers.find? (fun t => decide (file_count ≤ t.maxImages)) with
  | some t => some t.shape
  | none =>
    match tiers.getLast? with
    | some t => some t.shape
    | none => none

/-- Whether a list of tiers is sorted ascending by the key `f` (adjacent
pairs non-decreasing), as `parse_machine_tiers` guarantees for
`maxImages`. -/
def sortedByKey (f : Tier → Int) : List Tier → Bool
  | [] => true
  | [_] => true
  | a :: b :: rest => decide (f a ≤ f b) && sortedByKey f (b :: rest)

/-- The tier table of the repository test suite
(src/tests/test_batch_domain.py), sorted ascending by maxImages with
non-decreasing shapes. -/
def exTiers : List Tier :=
  [⟨200, "n2-standard-4", 4000, 16384⟩,
   ⟨500, "n2-standard-8", 8000, 32768⟩,
   ⟨1000, "n2-highmem-8", 8000, 65536⟩]

/-- A tier table sorted ascending by maxImages whose larger tier has a
smaller compute shape; `parse_machine_tiers` accepts such a table. -/
def badTiers : List Tier :=
  [⟨10, "big", 4000, 32768⟩,
   ⟨100, "small", 2000, 8192⟩]

/-- Python `int(q)` for a rational: truncation toward zero. -/
def rat_trunc (q : ℚ) : Int :=
  if q < 0 then -(Int.floor (-q)) else Int.floor q

/-- Fuel-bounded binary search for the floor of the base-2 logarithm of a
positive rational.  The search stops as soon as the value lies in [1, 2),
so for any quantity in the binary64 range it finishes well inside the
fuel. -/
def floorLog2Aux : ℚ → Int → Nat → Int
  | _, e, 0 => e
  | q, e, fuel + 1 =>
    if q < 1 then floorLog2Aux (q * 2) (e - 1) fuel
    else if 2 ≤ q then floorLog2Aux (q / 2) (e + 1) fuel
    else e

/-- Floor of the base-2 logarithm of a positive rational; the fuel covers
the whole binary64 exponent range. -/
def floorLog2 (q : ℚ) : Int :=
  floorLog2Aux q 0 4400

/-- Round a rational to the nearest integer, ties to even (the IEEE 754
rounding rule at integer granularity). -/
def roundHalfEven (q : ℚ) : Int :=
  if q - Int.floor q < 1 / 2 then Int.floor q
  else if 1 / 2 < q - Int.floor q then Int.floor q + 1
  else if Int.floor q % 2 = 0 then Int.floor q else Int.floor q + 1

/-- The IEEE 754 binary64 value nearest a rational — the value a Python
float holds: scale the magnitude to a 53-bit significand, round to
nearest with ties to even, and rescale.  Faithful on the normal double
range, which covers every quantity this service computes (subnormal
underflow and overflow to infinity are outside the model). -/
def toDouble (q : ℚ) : ℚ :=
  if q = 0 then 0
  else if q < 0 then
    -((roundHalfEven (-q / 2 ^ (floorLog2 (-q) - 52)) : ℚ) *
      2 ^ (floorLog2 (-q) - 52))
  else
    (roundHalfEven (q / 2 ^ (floorLog2 q - 52)) : ℚ) *
      2 ^ (floorLog2 q - 52)

/-- Embedding of `calculate_disk_size` (src/api/services/batch.py:143-166).
The Python code computes with IEEE binary64 floats: `avg_image_size_mb`
and `safety_margin` arrive as doubles (parsed by `parse_float_env`, so
they are `toDouble` images of the configured decimals), and every
multiplication rounds its exact product to the nearest double.
`int(...)` truncates toward zero. -/
def calculate_disk_size (file_count : Int) (avg_image_size_mb : ℚ)
    (safety_margin : ℚ) (min_boot_disk_mb : Int) : Int :=
  let input_size_mb : ℚ := toDouble (file_count * avg_image_size_mb)
  let total_processing_mb : ℚ := toDouble (input_size_mb * 6)
  let total_with_margin : Int := rat_trunc (toDouble (total_processing_mb * safety_margin))
  max total_with_margin min_boot_disk_mb

/-! Worker progress pipeline (src/worker/main.py). -/

/-- Whether the first character list starts the second one. -/
def startsList : List Char → List Char → Bool
  | [], _ => true
  | _ :: _, [] => false
  | a :: s, b :: t => a == b && startsList s t

/-- Whether `sub` occurs contiguously somewhere in `s`. -/
def occursIn (sub : List Char) : List Char → Bool
  | [] => sub.isEmpty
  | c :: rest => startsList sub (c :: rest) || occursIn sub rest

/-- Python substring containment `sub in s` on strings. -/
def strContains (s sub : String) : Bool :=
  occursIn sub.toList s.toList

/-- Python `str.lower()`, character by character (the progress patterns
are ASCII, so ASCII lowering is what matters for matching). -/
def pyLower (s : String) : String :=
  String.mk (s.toList.map Char.toLower)

/-- Embedding of `PhotogrammetryWorker.PROGRESS_PATTERNS`
(src/worker/main.py:94-116): the ordered (substring, percentage) markers,
in expected chronological stage order. -/
def PROGRESS_PATTERNS : List (String × Nat) :=
  [("loading dataset", 5),
   ("found images", 8),
   ("running opensfm", 10),
   ("extracting", 12),
   ("detecting features", 15),
   ("matching", 20),
   ("creating tracks", 25),
   ("reconstructing", 30),
   ("undistort", 35),
   ("openmvs", 40),
   ("densif", 45),
   ("filterpoints", 50),
   ("meshing", 55),
   ("texturing", 60),
   ("georeferenc", 70),
   ("transform", 75),
   ("dem", 80),
   ("orthophoto", 85),
   ("cutting", 88),
   ("finished", 95),
   ("completed", 95)]

/-- Embedding of `PhotogrammetryWorker.estimate_progress`
(src/worker/main.py:243-249): lowercase the line, return the percentage of
the first pattern whose substring occurs in it, else 0. -/
def estimate_progress (log_line : String) : Nat :=
  match PROGRESS_PATTERNS.find? (fun p => strContains (pyLower log_line) p.1) with
  | some p => p.2
  | none => 0

/-- Drop the longest prefix of characters satisfying `p`. -/
def dropLeading (p : Char → Bool) (l : List Char) : List Char :=
  l.dropWhile p

/-- Drop the longest suffix of characters satisfying `p`. -/
def dropTrailing (p : Char → Bool) (l : List Char) : List Char :=
  (l.reverse.dropWhile p).reverse

/-- Python `str.strip(chars)`: drop the characters satisfying `p` from both
ends. -/
def pyStripChars (p : Char → Bool) (l : List Char) : List Char :=
  dropTrailing p (dropLeading p l)

/-- Python `str.strip()`: strip whitespace from both ends. -/
def pyStrip (s : String) : String :=
  String.mk (pyStripChars (fun c => c.isWhitespace) s.toList)

/-- One iteration of the output-scanning loop of
`PhotogrammetryWorker.run_odm` (src/worker/main.py:265-274).  The state is
`(last_progress, pushes)` where `pushes` records the progress values pushed
to Firestore so far (each push is an `update_status` call with status
"processing").  A stripped-empty line does nothing; otherwise the estimated
progress is pushed only when strictly above `last_progress`. -/
def scanStep (st : Nat × List Nat) (raw_line : String) : Nat × List Nat :=
  let line := pyStrip raw_line
  if line = "" then st
  else
    let new_progress := estimate_progress line
    if st.1 < new_progress then (new_progress, st.2 ++ [new_progress]) else st

/-- The whole scanning loop of `run_odm` over the log lines of the child
process, starting from `last_progress = 0` and no pushes. -/
def run_odm_scan (lines : List String) : Nat × List Nat :=
  lines.foldl scanStep (0, [])

/-- Embedding of `ODMSettings` (src/worker/main.py:53-58). -/
structure ODMSettings where
  pc_quality : String
  feature_quality : String
  fast_orthophoto : Bool
deriving DecidableEq

/-- Embedding of `ODMSettings.from_quality` (src/worker/main.py:60-68): the
fixed 3-way preset mapping; unknown quality values fall back to the
"medium" preset. -/
def ODMSettings.from_quality (quality : String) : ODMSettings :=
  if quality = "low" then ⟨"low", "low", true⟩
  else if quality = "medium" then ⟨"medium", "medium", false⟩
  else if quality = "high" then ⟨"high", "high", false⟩
  else ⟨"medium", "medium", false⟩

/-- The processing options of `WorkerConfig` (src/worker/main.py:32-50)
that `build_odm_command` consumes (the GCP project and bucket fields are
not used by the command builder and are omitted). -/
structure WorkerConfig where
  ortho_quality : String
  generate_dtm : Bool
  multispectral : Bool

/-- Embedding of `PhotogrammetryWorker.build_odm_command`
(src/worker/main.py:212-241).  `max_concurrency` stands for
`str(os.cpu_count() or 4)`, a decimal numeral string supplied by the
environment. -/
def build_odm_command (max_concurrency : String) (config : WorkerConfig) :
    List String :=
  let settings := ODMSettings.from_quality config.ortho_quality
  let cmd : List String :=
    ["python3", "/code/run.py",
     "--project-path", "/work",
     "--max-concurrency", max_concurrency,
     "--pc-quality", settings.pc_quality,
     "--feature-quality", settings.feature_quality]
  let cmd := cmd ++
    (if settings.fast_orthophoto then ["--fast-orthophoto", "--skip-3dmodel"]
     else ["--dsm"] ++ (if config.generate_dtm then ["--dtm"] else []))
  let cmd := cmd ++ ["--skip-report"]
  let cmd := cmd ++
    (if config.multispectral then ["--radiometric-calibration", "camera", "--rolling-shutter"]
     else [])
  cmd ++ ["project"]

/-! Filename sanitizer (src/api/services/storage.py:27-65). -/

/-- Python `filename.replace("\x00", "")`: remove all null bytes. -/
def removeNull (l : List Char) : List Char :=
  l.filter (fun c => !(c == Char.ofNat 0))

/-- Split a character list at every separator character; separators are
consumed, and a list with no separators yields one component. -/
def splitBy (isSep : Char → Bool) : List Char → List (List Char)
  | [] => [[]]
  | c :: rest =>
    let r := splitBy isSep rest
    if isSep c then [] :: r
    else
      match r with
      | h :: t => (c :: h) :: t
      | [] => [[c]]

/-- Keep a path component: pathlib drops empty components and lone-dot
components when parsing. -/
def keepComp (c : List Char) : Bool :=
  !(c.isEmpty) && !(c == ['.'])

/-- Windows path separators: pathlib accepts both backslash and slash. -/
def isWinSep (c : Char) : Bool :=
  c == '\\' || c == '/'

/-- The drive prefix removal of `ntpath.splitroot`, as used by
`PureWindowsPath`: a leading `X:` drive is dropped, and a UNC prefix
(two separators, server, separator, share) is dropped — the remainder
begins at the separator following the share, or is empty when the whole
string is the drive. -/
def stripWinDrive (l : List Char) : List Char :=
  match l with
  | c1 :: c2 :: rest =>
    if isWinSep c1 && isWinSep c2 then
      let afterServer := rest.dropWhile (fun c => !(isWinSep c))
      match afterServer with
      | [] => []
      | _ :: afterSep1 => afterSep1.dropWhile (fun c => !(isWinSep c))
    else if c2 = ':' then rest
    else l
  | _ => l

/-- Model of `PureWindowsPath(s).name`: drop the drive, split on either
separator, drop empty and lone-dot components, and take the last component
(empty when none remains). -/
def windowsName (l : List Char) : List Char :=
  (((splitBy isWinSep (stripWinDrive l)).filter keepComp).getLast?).getD []

/-- Model of `PurePosixPath(s).name`: split on slashes, drop empty and
lone-dot components, and take the last component. -/
def posixName (l : List Char) : List Char :=
  (((splitBy (fun c => c == '/') l).filter keepComp).getLast?).getD []

/-- Python `filename.replace("..", "")`: remove non-overlapping
occurrences of two consecutive dots, scanning left to right. -/
def pyReplaceDotDot : List Char → List Char
  | [] => []
  | [c] => [c]
  | a :: b :: rest =>
    if a = '.' ∧ b = '.' then pyReplaceDotDot rest
    else a :: pyReplaceDotDot (b :: rest)

/-- The characters the sanitizer keeps (the regex class
`[A-Za-z0-9_.\- ]`): ASCII letters, digits, underscore, dot, dash,
space. -/
def safeChar (c : Char) : Bool :=
  ('A' ≤ c && c ≤ 'Z') || ('a' ≤ c && c ≤ 'z') || ('0' ≤ c && c ≤ '9') ||
    c == '_' || c == '.' || c == '-' || c == ' '

/-- One character of the substitution `re.sub`: kept when safe, replaced
by an underscore otherwise. -/
def subChar (c : Char) : Char :=
  if safeChar c then c else '_'

/-- Python `re.sub(r..., "_", filename)` for the safe-character class:
every character outside the class becomes an underscore. -/
def reSubSafe (l : List Char) : List Char :=
  l.map subChar

/-- Python `filename.strip(". ")`: drop leading and trailing dots and
spaces. -/
def pyStripDotSpace (l : List Char) : List Char :=
  pyStripChars (fun c => c == '.' || c == ' ') l

/-- Index of the last dot in the list, Python `name.rfind(".")`. -/
def rfindDot (l : List Char) : Option Nat :=
  (l.reverse.findIdx? (fun c => c == '.')).map (fun j => l.length - 1 - j)

/-- The (stem, suffix) split of `PurePosixPath` on a plain file name (at
this point in the sanitizer the name holds no slash): the suffix starts at
the last dot when that dot is neither the first nor the last character,
else the suffix is empty. -/
def pySuffixStem (l : List Char) : List Char × List Char :=
  match rfindDot l with
  | some i => if 0 < i ∧ i < l.length - 1 then (l.take i, l.drop i) else (l, [])
  | none => (l, [])

/-- Python slice `l[:k]` for a possibly negative bound `k`. -/
def pyTake (l : List Char) (k : Int) : List Char :=
  let n : Int := if 0 ≤ k then k else (l.length : Int) + k
  l.take n.toNat

/-- The sanitizer pipeline up to and including the strip step: remove null
bytes, take the Windows then the POSIX basename, remove double dots,
replace unsafe characters by underscores, strip leading and trailing dots
and spaces. -/
def sanitizeStripped (s : String) : List Char :=
  pyStripDotSpace (reSubSafe (pyReplaceDotDot (posixName (windowsName (removeNull s.toList)))))

/-- The sanitizer pipeline after the 255-character cap: when the stripped
name is longer than 255 characters, keep the extension and slice the stem
to fit (Python slice semantics, so a negative room is a slice from the
end); otherwise the stripped name is unchanged. -/
def sanitizeTruncated (s : String) : List Char :=
  if 255 < (sanitizeStripped s).length then
    pyTake (pySuffixStem (sanitizeStripped s)).1
        (255 - ((pySuffixStem (sanitizeStripped s)).2.length : Int)) ++
      (pySuffixStem (sanitizeStripped s)).2
  else sanitizeStripped s

/-- Embedding of `sanitize_filename` (src/api/services/storage.py:27-65):
the stripped pipeline, then the 255-character cap, then the
"unnamed_file" fallback for an empty result. -/
def sanitize_filename (s : String) : String :=
  if (sanitizeTruncated s).isEmpty then "unnamed_file"
  else String.mk (sanitizeTruncated s)

/-- Whether a character list holds two consecutive dots. -/
def hasDotDotL : List Char → Bool
  | [] => false
  | [_] => false
  | a :: b :: rest => (a == '.' && b == '.') || hasDotDotL (b :: rest)

/-- Whether a string holds the ".." substring. -/
def containsDotDot (s : String) : Bool :=
  hasDotDotL s.toList

/-- The sanitizer embedding reproduces the expectations of the repository
unit tests (src/tests/test_storage_sanitize.py). -/
theorem sanitize_matches_repo_tests :
    sanitize_filename "image.jpg" = "image.jpg" ∧
    sanitize_filename "/etc/passwd" = "passwd" ∧
    sanitize_filename "C:\\Users\\hack\\evil.exe" = "evil.exe" ∧
    sanitize_filename "..." = "unnamed_file" ∧
    sanitize_filename "" = "unnamed_file" ∧
    sanitize_filename "my photo.jpg" = "my photo.jpg" ∧
    containsDotDot (sanitize_filename "../../etc/passwd") = false := by
  refine ⟨?_, ?_, ?_, ?_, ?_, ?_, ?_⟩ <;> decide

set_option maxRecDepth 10000 in
/-- The 255-character cap of the sanitizer keeps long names at 255
characters, as the repository length test expects. -/
theorem sanitize_long_name_length :
    (sanitize_filename (String.mk (List.replicate 300 'a' ++ ['.', 't', 'i', 'f']))).length = 255 := by
  decide

/-! Lemmas about the document model. -/

theorem doc_get_set (d : Doc) (k : String) (v : Value) (k2 : String) :
    Doc.get (Doc.set d k v) k2 = if k = k2 then some v else Doc.get d k2 := by
  induction d with
  | nil =>
    by_cases h : k = k2 <;> simp [Doc.set, Doc.get, h]
  | cons hd tl ih =>
    obtain ⟨k1, v1⟩ := hd
    by_cases h1 : k1 = k
    · subst h1
      by_cases h2 : k1 = k2 <;> simp [Doc.set, Doc.get, h2]
    · by_cases h2 : k1 = k2
      · subst h2
        have hk : ¬(k = k1) := fun h => h1 h.symm
        simp [Doc.set, Doc.get, h1, hk]
      · simp [Doc.set, Doc.get, h1, h2, ih]

theorem doc_keys_cons (k : String) (v : Value) (tl : Doc) :
    Doc.keys ((k, v) :: tl) = k :: Doc.keys tl := rfl

theorem doc_set_cons_hit (k1 : String) (v1 : Value) (tl : Doc) (k : String)
    (v : Value) (h : k1 = k) : Doc.set ((k1, v1) :: tl) k v = (k1, v) :: tl := by
  simp [Doc.set, h]

theorem doc_set_cons_miss (k1 : String) (v1 : Value) (tl : Doc) (k : String)
    (v : Value) (h : ¬(k1 = k)) :
    Doc.set ((k1, v1) :: tl) k v = (k1, v1) :: Doc.set tl k v := by
  simp [Doc.set, h]

theorem doc_mem_keys_set (d : Doc) (k x : String) (v : Value) :
    x ∈ Doc.keys (Doc.set d k v) → x ∈ Doc.keys d ∨ x = k := by
  induction d with
  | nil =>
    intro h
    rw [show Doc.set [] k v = [(k, v)] from rfl, doc_keys_cons] at h
    rcases List.mem_cons.mp h with h | h
    · exact Or.inr h
    · exact absurd h (List.not_mem_nil x)
  | cons hd tl ih =>
    obtain ⟨k1, v1⟩ := hd
    intro h
    by_cases h1 : k1 = k
    · rw [doc_set_cons_hit k1 v1 tl k v h1, doc_keys_cons] at h
      rw [doc_keys_cons]
      exact Or.inl h
    · rw [doc_set_cons_miss k1 v1 tl k v h1, doc_keys_cons] at h
      rw [doc_keys_cons]
      rcases List.mem_cons.mp h with h | h
      · exact Or.inl (List.mem_cons.mpr (Or.inl h))
      · rcases ih h with h2 | h2
        · exact Or.inl (List.mem_cons.mpr (Or.inr h2))
        · exact Or.inr h2

theorem doc_keys_set_nodup (d : Doc) (k : String) (v : Value)
    (hd : (Doc.keys d).Nodup) : (Doc.keys (Doc.set d k v)).Nodup := by
  induction d with
  | nil =>
    rw [show Doc.set [] k v = [(k, v)] from rfl, doc_keys_cons]
    simp [Doc.keys]
  | cons hd0 tl ih =>
    obtain ⟨k1, v1⟩ := hd0
    rw [doc_keys_cons] at hd
    obtain ⟨hnot, htl⟩ := List.nodup_cons.mp hd
    by_cases h1 : k1 = k
    · rw [doc_set_cons_hit k1 v1 tl k v h1, doc_keys_cons]
      exact List.nodup_cons.mpr ⟨hnot, htl⟩
    · rw [doc_set_cons_miss k1 v1 tl k v h1, doc_keys_cons]
      refine List.nodup_cons.mpr ⟨?_, ih htl⟩
      intro hmem
      rcases doc_mem_keys_set tl k k1 v hmem with h | h
      · exact hnot h
      · exact h1 h

theorem doc_merge_nil (d : Doc) : Doc.merge d [] = d := rfl

theorem doc_merge_cons (d : Doc) (k : String) (v : Value) (u : Doc) :
    Doc.merge d ((k, v) :: u) = Doc.merge (Doc.set d k v) u := rfl

theorem doc_keys_merge_nodup (u : Doc) (d : Doc)
    (hd : (Doc.keys d).Nodup) : (Doc.keys (Doc.merge d u)).Nodup := by
  induction u generalizing d with
  | nil => simpa [doc_merge_nil] using hd
  | cons hd0 tl ih =>
    obtain ⟨k1, v1⟩ := hd0
    rw [doc_merge_cons]
    exact ih _ (doc_keys_set_nodup d k1 v1 hd)

theorem doc_get_mem_keys (d : Doc) (k : String) (v : Value)
    (h : Doc.get d k = some v) : k ∈ Doc.keys d := by
  induction d with
  | nil => simp [Doc.get] at h
  | cons hd tl ih =>
    obtain ⟨k1, v1⟩ := hd
    rw [doc_keys_cons]
    by_cases h1 : k1 = k
    · exact List.mem_cons.mpr (Or.inl h1.symm)
    · have h2 : Doc.get tl k = some v := by
        rw [show Doc.get ((k1, v1) :: tl) k = if k1 = k then some v1 else Doc.get tl k from rfl, if_neg h1] at h
        exact h
      exact List.mem_cons.mpr (Or.inr (ih h2))

theorem doc_get_none_of_not_mem (d : Doc) (k : String)
    (h : k ∉ Doc.keys d) : Doc.get d k = none := by
  cases hg : Doc.get d k with
  | none => rfl
  | some v => exact absurd (doc_get_mem_keys d k v hg) h

theorem doc_get_merge (u : Doc) (hu : (Doc.keys u).Nodup) (d : Doc) (k : String) :
    Doc.get (Doc.merge d u) k =
      match Doc.get u k with
      | some v => some v
      | none => Doc.get d k := by
  induction u generalizing d with
  | nil => simp [doc_merge_nil, Doc.get]
  | cons hd0 tl ih =>
    obtain ⟨k1, v1⟩ := hd0
    rw [doc_keys_cons] at hu
    obtain ⟨hnot, htl⟩ := List.nodup_cons.mp hu
    rw [doc_merge_cons, ih htl]
    by_cases h : k1 = k
    · subst h
      have hnone : Doc.get tl k1 = none :=
        doc_get_none_of_not_mem tl k1 hnot
      simp [Doc.get, doc_get_set, hnone]
    · cases hg : Doc.get tl k <;> simp [Doc.get, doc_get_set, h, hg]

theorem db_set_same (db : DB) (pid : String) (d : Doc) :
    DB.set db pid d pid = some d := by
  simp [DB.set]

theorem db_set_other (db : DB) (pid : String) (d : Doc) (q : String)
    (h : q ≠ pid) : DB.set db pid d q = db q := by
  simp [DB.set, h]

/-! Claim C1. -/

/-- C1, counterexample: the claim states that on an allowed transition the
primitive writes `newStatus`; but `extra_updates` is merged after the
status binding and wins on key collision, so a call whose extra fields
bind "status" stores the extra value, not `newStatus`.  Here a transition
to "processing" with extra field status="hacked" yields a project whose
status is "hacked", not "processing". -/
theorem C1_counterexample :
    transitionResultStatus
        (transition_status_sync true exDB1 "t0" "p1" ["pending", "uploading"]
          "processing" (some [("status", Value.vstr "hacked")])) =
      some (Value.vstr "hacked") ∧
    some (Value.vstr "hacked") ≠ some (Value.vstr "processing") := by
  constructor
  · rfl
  · simp

/-- C1, amended: transition(projectId, allowedFrom, newStatus, extraFields)
returns NotFound and changes nothing when the project is missing; returns
Rejected with the actual current status and changes nothing when the
current status is not in allowedFrom; otherwise stores the merge of the
document with the update map (newStatus, fresh updated_at, then the extra
fields, extra fields winning on key collision) and returns the merged
document — so the stored document has status newStatus whenever the extra
fields do not bind "status", has the fresh updated_at whenever they do not
bind "updated_at", carries every extra field, and no other project
changes.  Extra fields come from a Python dict, hence distinct keys. -/
theorem C1_transition_spec (ok : Bool) (db : DB)
    (now project_id new_status : String) (allowed_from : List String)
    (extra : Doc) (hkeys : (Doc.keys extra).Nodup) :
    (db project_id = none →
      transition_status_sync ok db now project_id allowed_from new_status
          (some extra) =
        Except.ok (db, TransitionResult.notFound)) ∧
    (∀ data, db project_id = some data →
      statusIn (Doc.get data "status") allowed_from = false →
      transition_status_sync ok db now project_id allowed_from new_status
          (some extra) =
        Except.ok (db, TransitionResult.rejected (Doc.get data "status"))) ∧
    (∀ data, db project_id = some data →
      statusIn (Doc.get data "status") allowed_from = true →
      ∃ nd : Doc,
        transition_status_sync true db now project_id allowed_from new_status
            (some extra) =
          Except.ok (DB.set db project_id nd, TransitionResult.success nd) ∧
        (∀ q, q ≠ project_id → DB.set db project_id nd q = db q) ∧
        ("status" ∉ Doc.keys extra →
          Doc.get nd "status" = some (Value.vstr new_status)) ∧
        ("updated_at" ∉ Doc.keys extra →
          Doc.get nd "updated_at" = some (Value.vstr now)) ∧
        (∀ k v, Doc.get extra k = some v → Doc.get nd k = some v)) := by
  refine ⟨?_, ?_, ?_⟩
  · intro h
    simp [transition_status_sync, h]
  · intro data hdata hstat
    simp [transition_status_sync, hdata, hstat]
  · intro data hdata hstat
    have hbasendup :
        (Doc.keys ([("status", Value.vstr new_status),
          ("updated_at", Value.vstr now)] : Doc)).Nodup := by
      simp [Doc.keys]
    have hundup :
        (Doc.keys (Doc.merge [("status", Value.vstr new_status),
          ("updated_at", Value.vstr now)] extra)).Nodup :=
      doc_keys_merge_nodup extra _ hbasendup
    refine ⟨Doc.merge data (Doc.merge [("status", Value.vstr new_status),
      ("updated_at", Value.vstr now)] extra), ?_, ?_, ?_, ?_, ?_⟩
    · simp [transition_status_sync, hdata, hstat, firestoreUpdate]
    · intro q hq
      exact db_set_other db project_id _ q hq
    · intro hs
      rw [doc_get_merge _ hundup data "status"]
      rw [doc_get_merge extra hkeys _ "status"]
      rw [doc_get_none_of_not_mem extra "status" hs]
      rfl
    · intro hs
      rw [doc_get_merge _ hundup data "updated_at"]
      rw [doc_get_merge extra hkeys _ "updated_at"]
      rw [doc_get_none_of_not_mem extra "updated_at" hs]
      rfl
    · intro k v hk
      rw [doc_get_merge _ hundup data k]
      rw [doc_get_merge extra hkeys _ k]
      rw [hk]

/-- C1, witness: the successful branch of the amended theorem at the call
the dispatcher actually makes (extra fields progress=0, files_count=3 on a
pending project) yields a stored status of "processing". -/
theorem C1_transition_spec_witness :
    transitionResultStatus
        (transition_status_sync true exDB1 "t0" "p1" ["pending", "uploading"]
          "processing" (some [("progress", Value.vint 0), ("files_count", Value.vint 3)])) =
      some (Value.vstr "processing") := by
  obtain ⟨nd, he, _, hs, _, _⟩ :=
    (C1_transition_spec true exDB1 "t0" "p1" "processing"
        ["pending", "uploading"]
        [("progress", Value.vint 0), ("files_count", Value.vint 3)]
        (by decide)).2.2 exPendingDoc rfl rfl
  rw [show (transition_status_sync true exDB1 "t0" "p1" ["pending", "uploading"]
        "processing" (some [("progress", Value.vint 0), ("files_count", Value.vint 3)])) =
      Except.ok (DB.set exDB1 "p1" nd, TransitionResult.success nd) from he]
  exact hs (by decide)

/-! Claim C2. -/

/-- C2, counterexample: `_append_file_sync` (the upload-registration write)
sets status "uploading" unconditionally and `finalize_upload` sets
"pending" unconditionally, so both move a project out of the terminal
status COMPLETED — transitions outside the lifecycle graph.  Here a
completed project becomes "uploading" again via upload registration, and
"pending" again via finalize. -/
theorem C2_counterexample :
    dbStatus exDB2 "p1" = some (Value.vstr "completed") ∧
    (append_file_sync exDB2 "t1" "p1" [("file_id", Value.vstr "f1")]).2 = true ∧
    dbStatus ((append_file_sync exDB2 "t1" "p1" [("file_id", Value.vstr "f1")]).1) "p1" =
      some (Value.vstr "uploading") ∧
    dbStatus ((finalize_upload exDB2 "t1" "p1" ["f1.jpg"]).1) "p1" =
      some (Value.vstr "pending") := by
  exact ⟨rfl, rfl, rfl, rfl⟩

/-- C2, amended: writes that go through the atomic transition primitive
respect the lifecycle graph: the dispatcher calls it with
allowedFrom = [pending, uploading], and on a project whose status is
COMPLETED or FAILED that call rejects and leaves the store unmodified, so
the transition path never moves a project out of a terminal status.  The
unconditional status writes (`_append_file_sync` forcing UPLOADING,
`finalize_upload` forcing PENDING) do not go through the primitive and can
move a project out of COMPLETED or FAILED, as the counterexample shows. -/
theorem C2_terminal_rejected (ok : Bool) (db : DB) (now pid : String)
    (extra : Option Doc) (data : Doc) (hdata : db pid = some data)
    (hterm : Doc.get data "status" = some (Value.vstr "completed") ∨
      Doc.get data "status" = some (Value.vstr "failed")) :
    transition_status_sync ok db now pid ["pending", "uploading"] "processing"
        extra =
      Except.ok (db, TransitionResult.rejected (Doc.get data "status")) := by
  have hstat : statusIn (Doc.get data "status") ["pending", "uploading"] = false := by
    rcases hterm with h | h <;> rw [h] <;> rfl
  simp [transition_status_sync, hdata, hstat]

/-- C2, witness: the dispatcher call on a concrete completed project is
rejected with the store unchanged. -/
theorem C2_terminal_rejected_witness :
    transition_status_sync true exDB2 "t2" "p1" ["pending", "uploading"]
        "processing" (some [("progress", Value.vint 0)]) =
      Except.ok (exDB2, TransitionResult.rejected (some (Value.vstr "completed"))) := by
  exact C2_terminal_rejected true exDB2 "t2" "p1"
    (some [("progress", Value.vint 0)]) exCompletedDoc rfl (Or.inl rfl)

/-! Claim C3. -/

/-- C3, counterexample: the claim states that a failure inside the
terminal status write propagates to the caller; but the worker performs
its terminal write (status "completed" or "failed", src/worker/main.py:361
and :385) through `update_status`, whose try/except swallows every
failure.  Here the terminal "completed" write fails (Firestore raises) and
the function returns normally with the store unchanged. -/
theorem C3_counterexample :
    update_status false exDB1 "t3" "p1" "completed" (some 100) none
        (some [Value.vdoc [("type", Value.vstr "orthophoto")]]) = exDB1 ∧
    dbStatus exDB1 "p1" = some (Value.vstr "pending") := by
  exact ⟨rfl, rfl⟩

/-- C3, amended: a failure raised inside the atomic status transition
propagates to the caller (the transactional body of
`_transition_status_sync` has no handler, so when the write raises the
whole call errors); but the worker-side status writer `update_status` —
used both for progress pushes and for the terminal status write — catches
and logs every failure without re-raising, so a terminal-write failure
does not propagate and the store is left as it was. -/
theorem C3_propagation (db : DB) (now project_id new_status : String)
    (allowed_from : List String) (extra : Option Doc) (data : Doc)
    (hdata : db project_id = some data)
    (hallowed : statusIn (Doc.get data "status") allowed_from = true) :
    transition_status_sync false db now project_id allowed_from new_status
        extra =
      Except.error "firestore unavailable" ∧
    ∀ (db2 : DB) (now2 pid2 st2 : String) (progress : Option Int)
      (err : Option String) (outputs : Option (List Value)),
      update_status false db2 now2 pid2 st2 progress err outputs = db2 := by
  constructor
  · simp [transition_status_sync, hdata, hallowed, firestoreUpdate]
  · intro db2 now2 pid2 st2 progress err outputs
    rfl

/-- C3, witness: on a concrete pending project, a failing transactional
write makes the transition error, while a failing terminal write through
the worker writer returns the store unchanged. -/
theorem C3_propagation_witness :
    transition_status_sync false exDB1 "t4" "p1" ["pending"] "processing"
        none =
      Except.error "firestore unavailable" ∧
    update_status false exDB1 "t4" "p1" "failed" none (some "boom") none = exDB1 := by
  obtain ⟨h1, h2⟩ :=
    C3_propagation exDB1 "t4" "p1" "processing" ["pending"] none
      exPendingDoc rfl rfl
  exact ⟨h1, h2 exDB1 "t4" "p1" "failed" none (some "boom") none⟩

/-! Lemmas about tier selection. -/

theorem select_head (fc : Int) (t : Tier) (rest : List Tier)
    (h : fc ≤ t.maxImages) :
    select_machine_tier fc (t :: rest) = some t.shape := by
  have hp : decide (fc ≤ t.maxImages) = true := decide_eq_true h
  unfold select_machine_tier
  rw [List.find?_cons_of_pos rest hp]

theorem select_cons_of_gt (fc : Int) (t : Tier) (rest : List Tier)
    (h : ¬(fc ≤ t.maxImages)) (hne : rest ≠ []) :
    select_machine_tier fc (t :: rest) = select_machine_tier fc rest := by
  cases rest with
  | nil => exact absurd rfl hne
  | cons b l =>
    simp [select_machine_tier, h, List.getLast?_cons_cons]

theorem select_singleton (fc : Int) (t : Tier) :
    select_machine_tier fc [t] = some t.shape := by
  by_cases h : fc ≤ t.maxImages
  · exact select_head fc t [] h
  · simp [select_machine_tier, h]

theorem select_mem (fc : Int) (tiers : List Tier) (hne : tiers ≠ []) :
    ∃ t, t ∈ tiers ∧ select_machine_tier fc tiers = some t.shape := by
  induction tiers with
  | nil => exact absurd rfl hne
  | cons t rest ih =>
    by_cases h : fc ≤ t.maxImages
    · exact ⟨t, List.mem_cons_self t rest, select_head fc t rest h⟩
    · cases rest with
      | nil => exact ⟨t, List.mem_cons_self t [], select_singleton fc t⟩
      | cons b l =>
        obtain ⟨u, hu, hsel⟩ := ih (List.cons_ne_nil b l)
        refine ⟨u, List.mem_cons_of_mem t hu, ?_⟩
        rw [select_cons_of_gt fc t (b :: l) h (List.cons_ne_nil b l)]
        exact hsel

theorem sorted_tail (f : Tier → Int) (t : Tier) (rest : List Tier)
    (h : sortedByKey f (t :: rest) = true) : sortedByKey f rest = true := by
  cases rest with
  | nil => rfl
  | cons b l =>
    have := (Bool.and_eq_true _ _).mp h
    exact this.2

theorem sorted_head_le (f : Tier → Int) (t : Tier) (rest : List Tier)
    (h : sortedByKey f (t :: rest) = true) :
    ∀ u ∈ rest, f t ≤ f u := by
  induction rest generalizing t with
  | nil => intro u hu; exact absurd hu (List.not_mem_nil u)
  | cons b l ih =>
    obtain ⟨h1, h2⟩ := (Bool.and_eq_true _ _).mp h
    have htb : f t ≤ f b := of_decide_eq_true h1
    intro u hu
    rcases List.mem_cons.mp hu with h3 | h3
    · exact h3 ▸ htb
    · exact le_trans htb (ih b h2 u h3)

theorem select_first_aux (fc : Int) (tiers : List Tier) :
    ∀ (i : Nat) (hi : i < tiers.length),
      (∀ j (hj : j < i), (tiers.get ⟨j, Nat.lt_trans hj hi⟩).maxImages < fc) →
      fc ≤ (tiers.get ⟨i, hi⟩).maxImages →
      select_machine_tier fc tiers = some (tiers.get ⟨i, hi⟩).shape := by
  induction tiers with
  | nil =>
    intro i hi
    exact absurd hi (Nat.not_lt_zero i)
  | cons t rest ih =>
    intro i hi hmin hq
    cases i with
    | zero => exact select_head fc t rest hq
    | succ j =>
      have h0 : t.maxImages < fc := hmin 0 (Nat.zero_lt_succ j)
      have hngt : ¬(fc ≤ t.maxImages) := not_le.mpr h0
      have hrest : rest ≠ [] := by
        cases rest with
        | nil => exact absurd (Nat.lt_of_succ_lt_succ hi) (Nat.not_lt_zero j)
        | cons b l => exact List.cons_ne_nil b l
      rw [select_cons_of_gt fc t rest hngt hrest]
      exact ih j (Nat.lt_of_succ_lt_succ hi)
        (fun k hk => hmin (k + 1) (Nat.succ_lt_succ hk)) hq

theorem select_last_aux (fc : Int) (tiers : List Tier) (hne : tiers ≠ [])
    (hall : ∀ t ∈ tiers, t.maxImages < fc) :
    ∃ tl, tiers.getLast? = some tl ∧
      select_machine_tier fc tiers = some tl.shape := by
  induction tiers with
  | nil => exact absurd rfl hne
  | cons t rest ih =>
    have hngt : ¬(fc ≤ t.maxImages) :=
      not_le.mpr (hall t (List.mem_cons_self t rest))
    cases rest with
    | nil => exact ⟨t, rfl, select_singleton fc t⟩
    | cons b l =>
      obtain ⟨tl, h1, h2⟩ := ih (List.cons_ne_nil b l)
        (fun u hu => hall u (List.mem_cons_of_mem t hu))
      refine ⟨tl, ?_, ?_⟩
      · rw [List.getLast?_cons_cons]
        exact h1
      · rw [select_cons_of_gt fc t (b :: l) hngt (List.cons_ne_nil b l)]
        exact h2

/-! Claim C4. -/

/-- C4: for a non-empty tier list sorted ascending by maxImages,
`select_machine_tier` returns the shape of the first tier whose maxImages
is at least fileCount (so a fileCount equal to a boundary selects that
tier, since the boundary satisfies `fileCount ≤ maxImages`), and when
fileCount exceeds every maxImages it returns the shape of the last tier. -/
theorem C4_select_first_qualifying (tiers : List Tier) (fc : Int)
    (hne : tiers ≠ [])
    (_hsorted : sortedByKey Tier.maxImages tiers = true) :
    (∀ (i : Nat) (hi : i < tiers.length),
      (∀ j (hj : j < i), (tiers.get ⟨j, Nat.lt_trans hj hi⟩).maxImages < fc) →
      fc ≤ (tiers.get ⟨i, hi⟩).maxImages →
      select_machine_tier fc tiers = some (tiers.get ⟨i, hi⟩).shape) ∧
    ((∀ t ∈ tiers, t.maxImages < fc) →
      ∃ tl, tiers.getLast? = some tl ∧
        select_machine_tier fc tiers = some tl.shape) := by
  exact ⟨select_first_aux fc tiers, select_last_aux fc tiers hne⟩

/-- C4, witness: on the tier table of the repository test suite, a
fileCount equal to the first boundary (200) selects the first tier, and a
fileCount above every boundary selects the last tier. -/
theorem C4_select_first_qualifying_witness :
    select_machine_tier 200 exTiers = some ("n2-standard-4", 4000, 16384) ∧
    select_machine_tier 99999 exTiers = some ("n2-highmem-8", 8000, 65536) := by
  obtain ⟨h1, h2⟩ :=
    C4_select_first_qualifying exTiers 200 (List.cons_ne_nil _ _) rfl
  obtain ⟨h3, h4⟩ :=
    C4_select_first_qualifying exTiers 99999 (List.cons_ne_nil _ _) rfl
  constructor
  · have := h1 0 (by decide) (fun j hj => absurd hj (Nat.not_lt_zero j)) (by decide)
    exact this
  · obtain ⟨tl, hl, hs⟩ := h4 (by decide)
    rw [show exTiers.getLast? =
      some (⟨1000, "n2-highmem-8", 8000, 65536⟩ : Tier) from rfl] at hl
    cases hl
    exact hs

/-! Claim C5. -/

/-- C5, counterexample: the claim quantifies over all tier tables sorted
ascending by maxImages, but nothing forces the CPU or memory columns of
such a table to grow with maxImages (`parse_machine_tiers` only sorts by
maxImages).  On a sorted table whose larger tier has a smaller shape,
a larger fileCount selects a strictly smaller CPU and memory shape. -/
theorem C5_counterexample :
    sortedByKey Tier.maxImages badTiers = true ∧
    (5 : Int) ≤ 50 ∧
    select_machine_tier 5 badTiers = some ("big", 4000, 32768) ∧
    select_machine_tier 50 badTiers = some ("small", 2000, 8192) ∧
    (2000 : Int) < 4000 ∧ (8192 : Int) < 32768 := by
  exact ⟨rfl, by decide, rfl, rfl, by decide, by decide⟩

/-- C5, amended: for tier tables sorted ascending by maxImages whose
cpuMilli and memoryMib columns are also non-decreasing in table order
(true of any sensible configuration, but not validated by
`parse_machine_tiers`), selection is monotonic: for fileCounts a ≤ b the
tier selected for b has CPU and memory at least those of the tier
selected for a. -/
theorem C5_monotone (tiers : List Tier) (a b : Int) (hne : tiers ≠ [])
    (hmax : sortedByKey Tier.maxImages tiers = true)
    (hcpu : sortedByKey Tier.cpuMilli tiers = true)
    (hmem : sortedByKey Tier.memoryMib tiers = true)
    (hab : a ≤ b) :
    ∃ sa sb, select_machine_tier a tiers = some sa ∧
      select_machine_tier b tiers = some sb ∧
      sa.2.1 ≤ sb.2.1 ∧ sa.2.2 ≤ sb.2.2 := by
  induction tiers with
  | nil => exact absurd rfl hne
  | cons t rest ih =>
    by_cases h : a ≤ t.maxImages
    · obtain ⟨u, hu, hsb⟩ := select_mem b (t :: rest) (List.cons_ne_nil t rest)
      refine ⟨t.shape, u.shape, select_head a t rest h, hsb, ?_, ?_⟩
      · rcases List.mem_cons.mp hu with h2 | h2
        · rw [h2]
        · exact sorted_head_le Tier.cpuMilli t rest hcpu u h2
      · rcases List.mem_cons.mp hu with h2 | h2
        · rw [h2]
        · exact sorted_head_le Tier.memoryMib t rest hmem u h2
    · have hb : ¬(b ≤ t.maxImages) := fun hble => h (le_trans hab hble)
      cases rest with
      | nil =>
        exact ⟨t.shape, t.shape, select_singleton a t, select_singleton b t,
          le_refl _, le_refl _⟩
      | cons c l =>
        obtain ⟨sa, sb, h1, h2, h3, h4⟩ := ih (List.cons_ne_nil c l)
          (sorted_tail Tier.maxImages t (c :: l) hmax)
          (sorted_tail Tier.cpuMilli t (c :: l) hcpu)
          (sorted_tail Tier.memoryMib t (c :: l) hmem)
        refine ⟨sa, sb, ?_, ?_, h3, h4⟩
        · rw [select_cons_of_gt a t (c :: l) h (List.cons_ne_nil c l)]
          exact h1
        · rw [select_cons_of_gt b t (c :: l) hb (List.cons_ne_nil c l)]
          exact h2

/-- C5, witness: on the tier table of the repository test suite (whose
shape columns are non-decreasing), fileCounts 100 ≤ 600 select
non-decreasing CPU and memory shapes. -/
theorem C5_monotone_witness :
    ∃ sa sb, select_machine_tier 100 exTiers = some sa ∧
      select_machine_tier 600 exTiers = some sb ∧
      sa.2.1 ≤ sb.2.1 ∧ sa.2.2 ≤ sb.2.2 :=
  C5_monotone exTiers 100 600 (List.cons_ne_nil _ _) rfl rfl rfl (by decide)

/-! Lemmas about the binary64 model. -/

theorem floorLog2Aux_eq : ∀ (fuel : Nat) (q : ℚ) (e E : Int),
    (2 : ℚ) ^ E ≤ q → q < 2 ^ (E + 1) → E.natAbs ≤ fuel →
    floorLog2Aux q e fuel = e + E := by
  intro fuel
  induction fuel with
  | zero =>
    intro q e E h1 h2 hfuel
    have hE : E = 0 := by omega
    subst hE
    show e = e + 0
    omega
  | succ n ih =>
    intro q e E h1 h2 hfuel
    by_cases hlt : q < 1
    · have hEneg : E < 0 := by
        by_contra hE
        push_neg at hE
        have hg : (2 : ℚ) ^ (0 : ℤ) ≤ 2 ^ E :=
          zpow_le_zpow_right₀ (by norm_num) hE
        rw [zpow_zero] at hg
        exact absurd (lt_of_le_of_lt (le_trans hg h1) hlt) (by norm_num)
      rw [show floorLog2Aux q e (n + 1) = floorLog2Aux (q * 2) (e - 1) n from by
        rw [floorLog2Aux, if_pos hlt]]
      have hb1 : (2 : ℚ) ^ (E + 1) ≤ q * 2 := by
        rw [zpow_add_one₀ (by norm_num : (2 : ℚ) ≠ 0)]
        exact mul_le_mul_of_nonneg_right h1 (by norm_num)
      have hb2 : q * 2 < 2 ^ (E + 1 + 1) := by
        rw [zpow_add_one₀ (by norm_num : (2 : ℚ) ≠ 0)]
        exact mul_lt_mul_of_pos_right h2 (by norm_num)
      rw [ih (q * 2) (e - 1) (E + 1) hb1 hb2 (by omega)]
      omega
    · by_cases hge : 2 ≤ q
      · have hEpos : 0 < E := by
          by_contra hE
          push_neg at hE
          have hg : (2 : ℚ) ^ (E + 1) ≤ 2 ^ (1 : ℤ) :=
            zpow_le_zpow_right₀ (by norm_num) (by omega)
          rw [zpow_one] at hg
          exact absurd (lt_of_lt_of_le h2 hg) (not_lt.mpr hge)
        rw [show floorLog2Aux q e (n + 1) = floorLog2Aux (q / 2) (e + 1) n from by
          rw [floorLog2Aux, if_neg hlt, if_pos hge]]
        have hb1 : (2 : ℚ) ^ (E - 1) ≤ q / 2 := by
          rw [zpow_sub_one₀ (by norm_num : (2 : ℚ) ≠ 0), div_eq_mul_inv]
          exact mul_le_mul_of_nonneg_right h1 (by norm_num)
        have hb2 : q / 2 < 2 ^ (E - 1 + 1) := by
          rw [show E - 1 + 1 = E from by omega]
          rw [div_lt_iff₀ (by norm_num : (0 : ℚ) < 2)]
          rw [show (2 : ℚ) ^ E * 2 = 2 ^ (E + 1) from
            (zpow_add_one₀ (by norm_num : (2 : ℚ) ≠ 0) E).symm]
          exact h2
        rw [ih (q / 2) (e + 1) (E - 1) hb1 hb2 (by omega)]
        omega
      · have h1q : (1 : ℚ) ≤ q := not_lt.mp hlt
        have hq2 : q < 2 := not_le.mp hge
        have hE0 : E = 0 := by
          have hlow : 0 < E + 1 := by
            by_contra h
            push_neg at h
            have hg : (2 : ℚ) ^ (E + 1) ≤ 2 ^ (0 : ℤ) :=
              zpow_le_zpow_right₀ (by norm_num) h
            rw [zpow_zero] at hg
            exact absurd (lt_of_lt_of_le h2 hg) (not_lt.mpr h1q)
          have hhigh : E < 1 := by
            by_contra h
            push_neg at h
            have hg : (2 : ℚ) ^ (1 : ℤ) ≤ 2 ^ E :=
              zpow_le_zpow_right₀ (by norm_num) h
            rw [zpow_one] at hg
            exact absurd (le_trans hg h1) hge
          omega
        subst hE0
        rw [show floorLog2Aux q e (n + 1) = e from by
          rw [floorLog2Aux, if_neg hlt, if_neg hge]]
        omega

theorem floorLog2_eq (q : ℚ) (E : Int) (h1 : (2 : ℚ) ^ E ≤ q)
    (h2 : q < 2 ^ (E + 1)) (hE : E.natAbs ≤ 4400) : floorLog2 q = E := by
  unfold floorLog2
  rw [floorLog2Aux_eq 4400 q 0 E h1 h2 hE]
  omega

theorem roundHalfEven_eq_low (q : ℚ) (n : Int) (h1 : (n : ℚ) ≤ q)
    (h2 : q < (n : ℚ) + 1 / 2) : roundHalfEven q = n := by
  have hfl : Int.floor q = n :=
    Int.floor_eq_iff.mpr ⟨h1, lt_of_lt_of_le h2 (by linarith)⟩
  unfold roundHalfEven
  rw [hfl, if_pos (by linarith)]

theorem roundHalfEven_eq_high (q : ℚ) (n : Int) (h1 : (n : ℚ) + 1 / 2 < q)
    (h2 : q < (n : ℚ) + 1) : roundHalfEven q = n + 1 := by
  have hfl : Int.floor q = n :=
    Int.floor_eq_iff.mpr ⟨by linarith, h2⟩
  unfold roundHalfEven
  rw [hfl, if_neg (by linarith), if_pos (by linarith)]

theorem toDouble_eval (q : ℚ) (E m : Int) (hq : 0 < q)
    (h1 : (2 : ℚ) ^ E ≤ q) (h2 : q < 2 ^ (E + 1)) (hE : E.natAbs ≤ 4400)
    (hm : roundHalfEven (q / 2 ^ (E - 52)) = m) :
    toDouble q = (m : ℚ) * 2 ^ (E - 52) := by
  unfold toDouble
  rw [if_neg (ne_of_gt hq), if_neg (not_lt.mpr (le_of_lt hq)),
    floorLog2_eq q E h1 h2 hE, hm]

theorem toDouble_one : toDouble 1 = 1 := by
  have hr : roundHalfEven ((1 : ℚ) / 2 ^ ((0 : ℤ) - 52)) = 4503599627370496 := by
    apply roundHalfEven_eq_low <;> norm_num
  rw [toDouble_eval 1 0 4503599627370496 (by norm_num) (by norm_num)
    (by norm_num) (by norm_num) hr]
  norm_num

theorem toDouble_250 : toDouble 250 = 250 := by
  have hr : roundHalfEven ((250 : ℚ) / 2 ^ ((7 : ℤ) - 52)) = 8796093022208000 := by
    apply roundHalfEven_eq_low <;> norm_num
  rw [toDouble_eval 250 7 8796093022208000 (by norm_num) (by norm_num)
    (by norm_num) (by norm_num) hr]
  norm_num

theorem toDouble_1500 : toDouble 1500 = 1500 := by
  have hr : roundHalfEven ((1500 : ℚ) / 2 ^ ((10 : ℤ) - 52)) = 6597069766656000 := by
    apply roundHalfEven_eq_low <;> norm_num
  rw [toDouble_eval 1500 10 6597069766656000 (by norm_num) (by norm_num)
    (by norm_num) (by norm_num) hr]
  norm_num

theorem toDouble_1000 : toDouble 1000 = 1000 := by
  have hr : roundHalfEven ((1000 : ℚ) / 2 ^ ((9 : ℤ) - 52)) = 8796093022208000 := by
    apply roundHalfEven_eq_low <;> norm_num
  rw [toDouble_eval 1000 9 8796093022208000 (by norm_num) (by norm_num)
    (by norm_num) (by norm_num) hr]
  norm_num

theorem toDouble_6000 : toDouble 6000 = 6000 := by
  have hr : roundHalfEven ((6000 : ℚ) / 2 ^ ((12 : ℤ) - 52)) = 6597069766656000 := by
    apply roundHalfEven_eq_low <;> norm_num
  rw [toDouble_eval 6000 12 6597069766656000 (by norm_num) (by norm_num)
    (by norm_num) (by norm_num) hr]
  norm_num

/-- The double nearest the configured decimal 1.15: what
`parse_float_env("BATCH_DISK_SAFETY_MARGIN")` actually yields. -/
theorem toDouble_margin :
    toDouble (23 / 20) = 2589569785738035 / 2251799813685248 := by
  have hr : roundHalfEven ((23 / 20 : ℚ) / 2 ^ ((0 : ℤ) - 52)) = 5179139571476070 := by
    apply roundHalfEven_eq_low <;> norm_num
  rw [toDouble_eval (23 / 20) 0 5179139571476070 (by norm_num) (by norm_num)
    (by norm_num) (by norm_num) hr]
  norm_num

/-- The float product 1500 · double(1.15): the double
1724.9999999999998, strictly below 1725. -/
theorem toDouble_margin_product :
    toDouble ((1500 : ℚ) * (2589569785738035 / 2251799813685248)) =
      7586630231654399 / 4398046511104 := by
  have hr : roundHalfEven (((1500 : ℚ) * (2589569785738035 / 2251799813685248)) /
      2 ^ ((10 : ℤ) - 52)) = 7586630231654399 := by
    apply roundHalfEven_eq_low <;> norm_num
  rw [toDouble_eval ((1500 : ℚ) * (2589569785738035 / 2251799813685248)) 10
    7586630231654399 (by norm_num) (by norm_num) (by norm_num) (by norm_num) hr]
  norm_num

/-! Claim C6. -/


/-- C6, counterexample: the claim states the function returns exactly
max(floor(fileCount·avg·6·margin), minBootDiskMb), but the program
computes with binary64 floats.  With the configured decimals
avg = 1.0 and margin = 1.15 (parsed by `parse_float_env` into the
doubles `toDouble 1` and `toDouble (23/20)`, the latter strictly below
23/20), 250 images give 250·1·6 = 1500 exactly, but the float product
1500 · double(1.15) rounds down to the double 1724.9999999999998, and
int() truncates it to 1724 — one below the exact formula value 1725.
(The repository test suite itself allows this slack, accepting 124199
for an exact 124200.) -/
theorem C6_counterexample :
    calculate_disk_size 250 (toDouble 1) (toDouble (23 / 20)) 0 = 1724 ∧
    max (Int.floor ((250 : ℚ) * 1 * 6 * (23 / 20))) 0 = 1725 ∧
    toDouble (23 / 20) ≠ (23 / 20 : ℚ) := by
  refine ⟨?_, ?_, ?_⟩
  · show max (rat_trunc (toDouble (toDouble (toDouble (((250 : Int) : ℚ) * toDouble 1) * 6) *
      toDouble (23 / 20)))) 0 = 1724
    rw [toDouble_one, toDouble_margin,
      show ((250 : Int) : ℚ) * 1 = 250 from by norm_num, toDouble_250,
      show (250 : ℚ) * 6 = 1500 from by norm_num, toDouble_1500,
      toDouble_margin_product]
    rw [rat_trunc, if_neg (by norm_num)]
    rw [show Int.floor ((7586630231654399 : ℚ) / 4398046511104) = 1724 from
      Int.floor_eq_iff.mpr (by norm_num)]
    decide
  · rw [show (250 : ℚ) * 1 * 6 * (23 / 20) = 1725 from by norm_num]
    rw [show Int.floor ((1725 : ℚ)) = 1725 from Int.floor_eq_iff.mpr (by norm_num)]
    decide
  · rw [toDouble_margin]
    norm_num

/-- C6, amended: `calculate_disk_size` computes with binary64 floats —
each product rounds its exact value to the nearest double and int()
truncates toward zero — so the result can fall below the exact formula
(counterexample).  What holds of the program: the result is always at
least minBootDiskMb; and whenever the inputs are non-negative and the
three products are exactly representable as doubles (no rounding
occurs), the result equals the claimed
max(floor(fileCount·avg·6·margin), minBootDiskMb). -/
theorem C6_disk_size (file_count : Int) (avg_image_size_mb safety_margin : ℚ)
    (min_boot_disk_mb : Int) :
    min_boot_disk_mb ≤
      calculate_disk_size file_count avg_image_size_mb safety_margin
        min_boot_disk_mb ∧
    (0 ≤ file_count → 0 ≤ avg_image_size_mb → 0 ≤ safety_margin →
      toDouble ((file_count : ℚ) * avg_image_size_mb) =
        (file_count : ℚ) * avg_image_size_mb →
      toDouble ((file_count : ℚ) * avg_image_size_mb * 6) =
        (file_count : ℚ) * avg_image_size_mb * 6 →
      toDouble ((file_count : ℚ) * avg_image_size_mb * 6 * safety_margin) =
        (file_count : ℚ) * avg_image_size_mb * 6 * safety_margin →
      calculate_disk_size file_count avg_image_size_mb safety_margin
          min_boot_disk_mb =
        max (Int.floor ((file_count : ℚ) * avg_image_size_mb * 6 * safety_margin))
          min_boot_disk_mb) := by
  constructor
  · exact le_max_right _ _
  · intro hfc havg hsm h1 h2 h3
    have hfcq : (0 : ℚ) ≤ (file_count : ℚ) := by exact_mod_cast hfc
    have hq : (0 : ℚ) ≤ (file_count : ℚ) * avg_image_size_mb * 6 * safety_margin := by
      have ha : (0 : ℚ) ≤ (file_count : ℚ) * avg_image_size_mb :=
        mul_nonneg hfcq havg
      have hb : (0 : ℚ) ≤ (file_count : ℚ) * avg_image_size_mb * 6 := by
        nlinarith
      exact mul_nonneg hb hsm
    show max (rat_trunc (toDouble (toDouble (toDouble ((file_count : ℚ) * avg_image_size_mb) * 6) * safety_margin))) min_boot_disk_mb = _
    rw [h1, h2, h3]
    rw [rat_trunc, if_neg (not_lt.mpr hq)]

/-- C6, witness: the formula-correctness case of the repository test
suite (100 images of 10 MB, margin 1.0, no minimum floor), where all
three products are exactly representable doubles. -/
theorem C6_disk_size_witness :
    (0 : Int) ≤ calculate_disk_size 100 10 1 0 ∧
    calculate_disk_size 100 10 1 0 =
      max (Int.floor (((100 : Int) : ℚ) * 10 * 6 * 1)) 0 := by
  obtain ⟨h1, h2⟩ := C6_disk_size 100 10 1 0
  exact ⟨h1, h2 (by norm_num) (by norm_num) (by norm_num)
    (by rw [show ((100 : Int) : ℚ) * 10 = 1000 from by norm_num]
        exact toDouble_1000)
    (by rw [show ((100 : Int) : ℚ) * 10 * 6 = 6000 from by norm_num]
        exact toDouble_6000)
    (by rw [show ((100 : Int) : ℚ) * 10 * 6 * 1 = 6000 from by norm_num]
        exact toDouble_6000)⟩

/-! Lemmas about ordered scanning. -/

theorem find?_at_index {α : Type} (p : α → Bool) (l : List α) :
    ∀ (i : Nat) (hi : i < l.length),
      (∀ j (hj : j < i), p (l.get ⟨j, Nat.lt_trans hj hi⟩) = false) →
      p (l.get ⟨i, hi⟩) = true →
      l.find? p = some (l.get ⟨i, hi⟩) := by
  induction l with
  | nil =>
    intro i hi
    exact absurd hi (Nat.not_lt_zero i)
  | cons a l ih =>
    intro i hi hmin hp
    cases i with
    | zero =>
      have hp2 : p a = true := hp
      rw [List.find?_cons_of_pos _ hp2]
      rfl
    | succ j =>
      have h0 : p a = false := hmin 0 (Nat.zero_lt_succ j)
      have h0n : ¬(p a = true) := by simp [h0]
      rw [List.find?_cons_of_neg _ h0n]
      exact ih j (Nat.lt_of_succ_lt_succ hi)
        (fun k hk => hmin (k + 1) (Nat.succ_lt_succ hk)) hp

/-! Claim C7. -/

/-- C7: for every log line, `estimate_progress` returns the percentage of
the first entry of PROGRESS_PATTERNS whose substring occurs in the
lowercased line — list order wins, not the highest matching value — and
returns 0 when no substring occurs. -/
theorem C7_estimate_first_match (line : String) :
    (∀ (i : Nat) (hi : i < PROGRESS_PATTERNS.length),
      (∀ j (hj : j < i),
        strContains (pyLower line) (PROGRESS_PATTERNS.get ⟨j, Nat.lt_trans hj hi⟩).1 = false) →
      strContains (pyLower line) (PROGRESS_PATTERNS.get ⟨i, hi⟩).1 = true →
      estimate_progress line = (PROGRESS_PATTERNS.get ⟨i, hi⟩).2) ∧
    ((∀ p ∈ PROGRESS_PATTERNS, strContains (pyLower line) p.1 = false) →
      estimate_progress line = 0) := by
  constructor
  · intro i hi hmin hmatch
    unfold estimate_progress
    rw [find?_at_index (fun p => strContains (pyLower line) p.1) PROGRESS_PATTERNS
      i hi hmin hmatch]
  · intro hnone
    unfold estimate_progress
    rw [List.find?_eq_none.mpr (fun x hx => by simp [hnone x hx])]

/-- C7, witness: the line "Running OpenSfM" matches the third pattern
("running opensfm", 10) and no earlier one, so the estimate is 10 even
though later patterns would also give other values on other lines. -/
theorem C7_estimate_first_match_witness :
    estimate_progress "Running OpenSfM" = 10 := by
  have h :=
    (C7_estimate_first_match "Running OpenSfM").1 2 (by decide)
      (by decide) (by decide)
  exact h

/-! Claim C8. -/

theorem scanStep_invariant (st : Nat × List Nat) (line : String)
    (h1 : List.Chain' (· < ·) st.2) (h2 : ∀ x ∈ st.2, x ≤ st.1) :
    List.Chain' (· < ·) (scanStep st line).2 ∧
      ∀ x ∈ (scanStep st line).2, x ≤ (scanStep st line).1 := by
  unfold scanStep
  by_cases hline : pyStrip line = ""
  · simp only [hline, if_pos rfl]
    exact ⟨h1, h2⟩
  · simp only [if_neg hline]
    by_cases hgt : st.1 < estimate_progress (pyStrip line)
    · simp only [if_pos hgt]
      refine ⟨?_, ?_⟩
      · rw [List.chain'_append]
        refine ⟨h1, List.chain'_singleton _, ?_⟩
        intro x hx y hy
        have hxm : x ∈ st.2 :=
          List.mem_of_getLast?_eq_some (Option.mem_def.mp hx)
        have hym : estimate_progress (pyStrip line) = y := by
          simpa using Option.mem_def.mp hy
        subst hym
        exact lt_of_le_of_lt (h2 x hxm) hgt
      · intro x hx
        rcases List.mem_append.mp hx with h | h
        · exact le_of_lt (lt_of_le_of_lt (h2 x h) hgt)
        · have : x = estimate_progress (pyStrip line) := by simpa using h
          exact this ▸ le_refl _
    · simp only [if_neg hgt]
      exact ⟨h1, h2⟩

theorem scan_invariant (lines : List String) :
    ∀ st : Nat × List Nat, List.Chain' (· < ·) st.2 → (∀ x ∈ st.2, x ≤ st.1) →
      List.Chain' (· < ·) (List.foldl scanStep st lines).2 ∧
        ∀ x ∈ (List.foldl scanStep st lines).2,
          x ≤ (List.foldl scanStep st lines).1 := by
  induction lines with
  | nil =>
    intro st h1 h2
    exact ⟨h1, h2⟩
  | cons line rest ih =>
    intro st h1 h2
    rw [List.foldl_cons]
    obtain ⟨h3, h4⟩ := scanStep_invariant st line h1 h2
    exact ih (scanStep st line) h3 h4

/-- C8: across the output-scanning loop of `run_odm`, a progress value is
pushed only when it strictly exceeds the last pushed value — a line whose
estimate is lower or equal leaves the state (last progress and pushed
list) unchanged — and consequently the sequence of pushed progress values
is strictly increasing. -/
theorem C8_progress_monotone :
    (∀ (st : Nat × List Nat) (line : String),
      estimate_progress (pyStrip line) ≤ st.1 → scanStep st line = st) ∧
    (∀ lines : List String, List.Chain' (· < ·) (run_odm_scan lines).2) := by
  constructor
  · intro st line hle
    unfold scanStep
    by_cases hline : pyStrip line = ""
    · simp [hline]
    · simp [hline, not_lt.mpr hle]
  · intro lines
    exact (scan_invariant lines (0, []) List.chain'_nil (by simp)).1

/-- C8, witness: a line whose estimate (20, "matching") is below the last
pushed value 50 leaves the state untouched, and a realistic out-of-order
log stream produces a strictly increasing push sequence. -/
theorem C8_progress_monotone_witness :
    scanStep (50, [20, 50]) "Matching features" = (50, [20, 50]) ∧
    List.Chain' (· < ·)
      (run_odm_scan ["loading dataset", "Matching features", "   ",
        "running OpenSfM detecting features", "DEM generation",
        "more matching output"]).2 := by
  obtain ⟨h1, h2⟩ := C8_progress_monotone
  exact ⟨h1 (50, [20, 50]) "Matching features" (by decide),
    h2 ["loading dataset", "Matching features", "   ",
      "running OpenSfM detecting features", "DEM generation",
      "more matching output"]⟩

/-! Lemmas about the sanitizer. -/

theorem reSubSafe_safe (l : List Char) : ∀ c ∈ reSubSafe l, safeChar c = true := by
  intro c hc
  rcases List.mem_map.mp hc with ⟨a, _, rfl⟩
  unfold subChar
  by_cases h : safeChar a = true
  · rw [if_pos h]
    exact h
  · rw [if_neg h]
    decide

theorem pyStripChars_part (p : Char → Bool) (l : List Char) :
    pyStripChars p l <:+: l := by
  have h1 : List.dropWhile p l <:+ l := List.dropWhile_suffix p
  have h2 : dropTrailing p (List.dropWhile p l) <+: List.dropWhile p l := by
    unfold dropTrailing
    rw [show List.dropWhile p l =
      (List.dropWhile p l).reverse.reverse from (List.reverse_reverse _).symm]
    rw [List.reverse_prefix]
    rw [List.reverse_reverse]
    exact List.dropWhile_suffix p
  exact h2.isInfix.trans h1.isInfix

theorem sanitizeStripped_safe (s : String) :
    ∀ c ∈ sanitizeStripped s, safeChar c = true := by
  intro c hc
  have hinf :=
    pyStripChars_part (fun c => c == '.' || c == ' ')
      (reSubSafe (pyReplaceDotDot (posixName (windowsName (removeNull s.toList)))))
  exact reSubSafe_safe _ c (hinf.subset hc)

theorem pySuffixStem_subset (l : List Char) :
    (pySuffixStem l).1 ⊆ l ∧ (pySuffixStem l).2 ⊆ l := by
  unfold pySuffixStem
  cases hm : rfindDot l with
  | none =>
    simp only [hm]
    exact ⟨fun c hc => hc, fun _ hc => absurd hc (List.not_mem_nil _)⟩
  | some i =>
    simp only [hm]
    by_cases hcond : 0 < i ∧ i < l.length - 1
    · rw [if_pos hcond]
      exact ⟨fun _ hc => (List.take_sublist i l).subset hc,
        fun _ hc => (List.drop_sublist i l).subset hc⟩
    · rw [if_neg hcond]
      exact ⟨fun c hc => hc, fun _ hc => absurd hc (List.not_mem_nil _)⟩

theorem pyTake_subset (l : List Char) (k : Int) : pyTake l k ⊆ l :=
  fun _ hc => (List.take_sublist _ l).subset hc

theorem sanitizeTruncated_subset (s : String) :
    ∀ c ∈ sanitizeTruncated s, c ∈ sanitizeStripped s := by
  intro c hc
  unfold sanitizeTruncated at hc
  by_cases hlen : 255 < (sanitizeStripped s).length
  · rw [if_pos hlen] at hc
    rcases List.mem_append.mp hc with h | h
    · exact (pySuffixStem_subset (sanitizeStripped s)).1 (pyTake_subset _ _ h)
    · exact (pySuffixStem_subset (sanitizeStripped s)).2 h
  · rw [if_neg hlen] at hc
    exact hc

theorem hasDotDot_append (s t : List Char) :
    hasDotDotL (s ++ '.' :: '.' :: t) = true := by
  induction s with
  | nil => simp [hasDotDotL]
  | cons c s ih =>
    cases hs : s ++ '.' :: '.' :: t with
    | nil => simp at hs
    | cons d rest =>
      rw [hs] at ih
      rw [List.cons_append, hs]
      simp [hasDotDotL, ih]

theorem hasDotDot_exists (l : List Char) (h : hasDotDotL l = true) :
    ∃ s t, l = s ++ '.' :: '.' :: t := by
  induction l with
  | nil => simp [hasDotDotL] at h
  | cons a l ih =>
    cases l with
    | nil => simp [hasDotDotL] at h
    | cons b rest =>
      rcases Bool.or_eq_true_iff.mp h with h1 | h1
      · obtain ⟨ha, hb⟩ := Bool.and_eq_true_iff.mp h1
        have ha2 : a = '.' := eq_of_beq ha
        have hb2 : b = '.' := eq_of_beq hb
        exact ⟨[], rest, by rw [ha2, hb2]; rfl⟩
      · obtain ⟨s, t, heq⟩ := ih h1
        exact ⟨a :: s, t, by rw [List.cons_append, ← heq]⟩

theorem hasDotDot_false_of_part (l1 l2 : List Char) (hinf : l1 <:+: l2)
    (h2 : hasDotDotL l2 = false) : hasDotDotL l1 = false := by
  cases hcase : hasDotDotL l1 with
  | false => rfl
  | true =>
    exfalso
    obtain ⟨s, t, hl1⟩ := hasDotDot_exists l1 hcase
    obtain ⟨u, v, hl2⟩ := hinf
    rw [hl1] at hl2
    have : l2 = (u ++ s) ++ '.' :: '.' :: (t ++ v) := by
      rw [← hl2]
      simp [List.append_assoc]
    rw [this, hasDotDot_append] at h2
    exact Bool.true_eq_false.mp h2

theorem pyReplaceDotDot_head (b : Char) (rest : List Char) (hb : ¬b = '.') :
    ∃ t, pyReplaceDotDot (b :: rest) = b :: t := by
  cases rest with
  | nil => exact ⟨[], rfl⟩
  | cons c rest2 =>
    refine ⟨pyReplaceDotDot (c :: rest2), ?_⟩
    show (if b = '.' ∧ c = '.' then pyReplaceDotDot rest2
      else b :: pyReplaceDotDot (c :: rest2)) = b :: pyReplaceDotDot (c :: rest2)
    rw [if_neg (fun hand => hb hand.1)]

theorem pyReplaceDotDot_no_dotdot (l : List Char) :
    hasDotDotL (pyReplaceDotDot l) = false := by
  have H : ∀ (n : Nat) (l : List Char), l.length ≤ n →
      hasDotDotL (pyReplaceDotDot l) = false := by
    intro n
    induction n with
    | zero =>
      intro l hl
      rw [List.eq_nil_of_length_eq_zero (Nat.le_zero.mp hl)]
      rfl
    | succ n ih =>
      intro l hl
      match l with
      | [] => rfl
      | [c] => rfl
      | a :: b :: rest =>
        by_cases hab : a = '.' ∧ b = '.'
        · rw [show pyReplaceDotDot (a :: b :: rest) = pyReplaceDotDot rest from by
            show (if a = '.' ∧ b = '.' then _ else _) = _
            rw [if_pos hab]]
          refine ih rest ?_
          have : rest.length + 2 ≤ n + 1 := hl
          omega
        · rw [show pyReplaceDotDot (a :: b :: rest) = a :: pyReplaceDotDot (b :: rest) from by
            show (if a = '.' ∧ b = '.' then _ else _) = _
            rw [if_neg hab]]
          have hrec : hasDotDotL (pyReplaceDotDot (b :: rest)) = false := by
            refine ih (b :: rest) ?_
            have : rest.length + 2 ≤ n + 1 := hl
            simp
            omega
          cases hX : pyReplaceDotDot (b :: rest) with
          | nil => rfl
          | cons h0 t0 =>
            rw [hX] at hrec
            show ((a == '.' && h0 == '.') || hasDotDotL (h0 :: t0)) = false
            rw [hrec, Bool.or_false]
            by_cases ha : a = '.'
            · have hbd : ¬b = '.' := fun hbd => hab ⟨ha, hbd⟩
              obtain ⟨t1, ht1⟩ := pyReplaceDotDot_head b rest hbd
              rw [ht1] at hX
              injection hX with hX1 _
              have : (h0 == '.') = false := by
                rw [← hX1]
                exact beq_eq_false_iff_ne.mpr hbd
              rw [this, Bool.and_false]
            · have : (a == '.') = false := beq_eq_false_iff_ne.mpr ha
              rw [this, Bool.false_and]
  exact H l.length l (le_refl _)

theorem subChar_dot (c : Char) : (subChar c = '.') ↔ (c = '.') := by
  unfold subChar
  by_cases h : safeChar c = true
  · rw [if_pos h]
  · rw [if_neg h]
    constructor
    · intro h1
      exact absurd h1 (by decide)
    · intro h1
      rw [h1] at h
      exact absurd (by decide) h

theorem reSubSafe_no_dotdot (l : List Char) (h : hasDotDotL l = false) :
    hasDotDotL (reSubSafe l) = false := by
  induction l with
  | nil => rfl
  | cons a l ih =>
    cases l with
    | nil => rfl
    | cons b rest =>
      have hsplit := Bool.or_eq_false_iff.mp h
      have ihh := ih hsplit.2
      show ((subChar a == '.' && subChar b == '.') ||
        hasDotDotL (subChar b :: List.map subChar rest)) = false
      have ihh2 : hasDotDotL (subChar b :: List.map subChar rest) = false := ihh
      rw [ihh2, Bool.or_false]
      have hone := Bool.and_eq_false_iff.mp hsplit.1
      rcases hone with h1 | h1
      · have : ¬(subChar a = '.') := fun hc =>
          (beq_eq_false_iff_ne.mp h1) ((subChar_dot a).mp hc)
        rw [beq_eq_false_iff_ne.mpr this, Bool.false_and]
      · have : ¬(subChar b = '.') := fun hc =>
          (beq_eq_false_iff_ne.mp h1) ((subChar_dot b).mp hc)
        rw [beq_eq_false_iff_ne.mpr this, Bool.and_false]

theorem sanitizeStripped_no_dotdot (s : String) :
    hasDotDotL (sanitizeStripped s) = false := by
  have hbase : hasDotDotL
      (reSubSafe (pyReplaceDotDot (posixName (windowsName (removeNull s.toList))))) = false :=
    reSubSafe_no_dotdot _ (pyReplaceDotDot_no_dotdot _)
  exact hasDotDot_false_of_part _ _
    (pyStripChars_part (fun c => c == '.' || c == ' ') _) hbase

/-! Claim C9. -/

set_option maxRecDepth 10000 in
/-- C9, counterexample: the claim states the sanitized name never holds
the ".." substring, but the 255-character cap glues a stem slice that ends
in a dot onto the ".tif" extension: for an input of 250 As, ".b", ".tif"
(256 safe characters, no adjacent dots) the stem slice keeps the dot at
position 250 and the result holds "..". -/
theorem C9_counterexample :
    containsDotDot (sanitize_filename (String.mk
      (List.replicate 250 'a' ++ ['.', 'b', '.', 't', 'i', 'f']))) = true := by
  decide

set_option maxHeartbeats 1000000 in
/-- C9, amended: for every input, `sanitize_filename` returns a non-empty
string all of whose characters are ASCII letters, digits, underscore,
dot, dash or space — hence no slash, backslash or null byte — and, when
the stripped pipeline result is at most 255 characters long (so the
length cap does not rebuild the name from stem and extension), the result
holds no ".." substring; inputs that sanitize to nothing yield
"unnamed_file". -/
theorem C9_sanitize_spec (s : String) :
    sanitize_filename s ≠ "" ∧
    (∀ c ∈ (sanitize_filename s).toList, safeChar c = true) ∧
    (∀ c ∈ (sanitize_filename s).toList,
      c ≠ '/' ∧ c ≠ '\\' ∧ c ≠ Char.ofNat 0) ∧
    ((sanitizeStripped s).length ≤ 255 →
      containsDotDot (sanitize_filename s) = false) := by
  have hchars : ∀ c ∈ (sanitize_filename s).toList, safeChar c = true := by
    unfold sanitize_filename
    by_cases hemp : (sanitizeTruncated s).isEmpty
    · rw [if_pos hemp]
      decide
    · rw [if_neg hemp]
      intro c hc
      have hc2 : c ∈ sanitizeTruncated s := hc
      exact sanitizeStripped_safe s c (sanitizeTruncated_subset s c hc2)
  refine ⟨?_, hchars, ?_, ?_⟩
  · unfold sanitize_filename
    by_cases hemp : (sanitizeTruncated s).isEmpty
    · rw [if_pos hemp]
      decide
    · rw [if_neg hemp]
      intro h
      have hnil : sanitizeTruncated s = [] := congrArg String.toList h
      rw [hnil] at hemp
      exact hemp rfl
  · intro c hc
    have hs := hchars c hc
    refine ⟨?_, ?_, ?_⟩ <;> intro h <;> rw [h] at hs <;> exact absurd hs (by decide)
  · intro hlen
    have htr : sanitizeTruncated s = sanitizeStripped s := by
      unfold sanitizeTruncated
      rw [if_neg (not_lt.mpr hlen)]
    unfold containsDotDot sanitize_filename
    by_cases hemp : (sanitizeTruncated s).isEmpty
    · rw [if_pos hemp]
      decide
    · rw [if_neg hemp]
      show hasDotDotL (sanitizeTruncated s) = false
      rw [htr]
      exact sanitizeStripped_no_dotdot s

/-- C9, witness: a typical filename satisfies all parts of the amended
claim, including the no-".." conclusion for short names. -/
theorem C9_sanitize_spec_witness :
    sanitize_filename "photo 01.jpg" ≠ "" ∧
    containsDotDot (sanitize_filename "photo 01.jpg") = false := by
  obtain ⟨h1, _, _, h4⟩ := C9_sanitize_spec "photo 01.jpg"
  exact ⟨h1, h4 (by decide)⟩

/-! Claim C10. -/

/-- C10: with ortho_quality "low" the fast-orthophoto preset is active and
the built ODM command never holds the "--dtm" flag, even when
generate_dtm is set; in general "--dtm" appears exactly when the selected
quality preset is the "medium" or the "high" preset (unknown quality
strings fall back to the "medium" preset) and generate_dtm is set.  The
max_concurrency argument stands for str(os.cpu_count() or 4), a decimal
numeral, hence never the string "--dtm". -/
theorem C10_low_quality_no_dtm (max_concurrency : String)
    (config : WorkerConfig) (hmc : max_concurrency ≠ "--dtm") :
    (config.ortho_quality = "low" →
      "--dtm" ∉ build_odm_command max_concurrency config) ∧
    ("--dtm" ∈ build_odm_command max_concurrency config ↔
      ((ODMSettings.from_quality config.ortho_quality =
          ODMSettings.from_quality "medium" ∨
        ODMSettings.from_quality config.ortho_quality =
          ODMSettings.from_quality "high") ∧
        config.generate_dtm = true)) := by
  constructor
  · intro hlow
    cases hg : config.generate_dtm <;> cases hms : config.multispectral <;>
      simp [build_odm_command, ODMSettings.from_quality, hlow, hg, hms,
        Ne.symm hmc]
  · by_cases h1 : config.ortho_quality = "low"
    · cases hg : config.generate_dtm <;> cases hms : config.multispectral <;>
        simp [build_odm_command, ODMSettings.from_quality, h1, hg, hms,
          Ne.symm hmc]
    · by_cases h2 : config.ortho_quality = "medium"
      · cases hg : config.generate_dtm <;> cases hms : config.multispectral <;>
          simp [build_odm_command, ODMSettings.from_quality, h1, h2, hg, hms,
            Ne.symm hmc]
      · by_cases h3 : config.ortho_quality = "high"
        · cases hg : config.generate_dtm <;> cases hms : config.multispectral <;>
            simp [build_odm_command, ODMSettings.from_quality, h1, h2, h3, hg,
              hms, Ne.symm hmc]
        · cases hg : config.generate_dtm <;> cases hms : config.multispectral <;>
            simp [build_odm_command, ODMSettings.from_quality, h1, h2, h3, hg,
              hms, Ne.symm hmc]

/-- C10, witness: with quality "low", terrain model requested and
multispectral off, the built command holds no "--dtm"; with quality
"medium" and terrain model requested it does. -/
theorem C10_low_quality_no_dtm_witness :
    "--dtm" ∉ build_odm_command "4" ⟨"low", true, false⟩ ∧
    "--dtm" ∈ build_odm_command "4" ⟨"medium", true, false⟩ := by
  constructor
  · exact (C10_low_quality_no_dtm "4" ⟨"low", true, false⟩ (by decide)).1 rfl
  · exact (C10_low_quality_no_dtm "4" ⟨"medium", true, false⟩ (by decide)).2.mpr
      (by exact ⟨Or.inl rfl, rfl⟩)

end Photogrammetry
